import Mathlib

/-!
Verification of the TSP solving pipeline of `tsp_ui.py`
(nearest-neighbor construction, 2-opt local search, multi-start driver).

Modelling conventions:
* Python floats are modelled as real numbers (`ℝ`); `math.hypot a b` is
  `Real.sqrt (a^2 + b^2)`.
* A point is a pair of reals; a city set is a `List Point`; a route is a
  `List ℕ` of city indices.  Python indexing `cities[k]` is modelled by
  `List.getD` with a default that no in-range execution ever reaches.
* The `random.shuffle` of the driver is modelled by passing the shuffled
  index list as an explicit argument.
* Python's `min(unvisited, key=...)` over a CPython set of small ints
  iterates in increasing numeric order (ints hash to themselves and the
  table of `set(range(n))` keeps slots in index order, removals never
  rehash), returning the first element attaining the minimal key; the
  `unvisited` set is therefore modelled as a strictly increasing list and
  `min` as a left fold keeping the current best unless a strictly smaller
  key appears.
-/

/-- A 2-D point, Python tuple `(x, y)` of floats. -/
abbrev Point : Type := ℝ × ℝ

/-- Source `euclidean_distance(a, b) = math.hypot(a[0]-b[0], a[1]-b[1])`. -/
noncomputable def euclidean_distance (a b : Point) : ℝ :=
  Real.sqrt ((a.1 - b.1) ^ 2 + (a.2 - b.2) ^ 2)

/-- Source `total_route_distance(route, cities)`: cyclic tour length; `0.0` when the
route has at most one stop.  The Python `for i in range(len(route))`
accumulation is a left fold over `List.range`. -/
noncomputable def total_route_distance (route : List ℕ) (cities : List Point) : ℝ :=
  if route.length ≤ 1 then 0
  else
    (List.range route.length).foldl
      (fun dist i =>
        dist +
          euclidean_distance (cities.getD (route.getD i 0) (0, 0))
            (cities.getD (route.getD ((i + 1) % route.length) 0) (0, 0)))
      0

/-- Python's `min(x :: xs, key=key)`: left fold that replaces the current
best only on a strictly smaller key, so the first minimizer in iteration
order wins. -/
noncomputable def pickMin (key : ℕ → ℝ) (x : ℕ) (xs : List ℕ) : ℕ :=
  xs.foldl (fun best j => if key j < key best then j else best) x

/-- The key used by `nearest_neighbor_tour`'s `min`: distance from the
current city to candidate city `j`. -/
noncomputable def nn_key (cities : List Point) (current j : ℕ) : ℝ :=
  euclidean_distance (cities.getD current (0, 0)) (cities.getD j (0, 0))

/-- The element Python's `min` returns is a member of the iterated list. -/
lemma pickMin_mem (key : ℕ → ℝ) : ∀ (xs : List ℕ) (x : ℕ), pickMin key x xs ∈ x :: xs := by
  intro xs
  induction xs with
  | nil => intro x; simp [pickMin]
  | cons y ys ih =>
    intro x
    simp only [pickMin, List.foldl_cons]
    by_cases hc : key y < key x
    · rw [if_pos hc]
      have h := ih y
      simp only [pickMin] at h
      exact List.mem_cons_of_mem x h
    · rw [if_neg hc]
      have h := ih x
      simp only [pickMin] at h
      rcases List.mem_cons.1 h with h1 | h1
      · rw [h1]; simp
      · simp [h1]

/-- The `while unvisited:` loop of `nearest_neighbor_tour`: pick the nearest
unvisited city, append it, remove it from `unvisited`, recurse. -/
noncomputable def nn_loop (cities : List Point) (current : ℕ) (unvisited : List ℕ) : List ℕ :=
  match unvisited with
  | [] => []
  | x :: xs =>
    let nxt := pickMin (nn_key cities current) x xs
    nxt :: nn_loop cities nxt ((x :: xs).erase nxt)
termination_by unvisited.length
decreasing_by
  calc ((x :: xs).erase (pickMin (nn_key cities current) x xs)).length
      = (x :: xs).length - 1 :=
        List.length_erase_of_mem (pickMin_mem (nn_key cities current) xs x)
    _ < (x :: xs).length := by simp

/-- Source `nearest_neighbor_tour(cities, start_index)`. -/
noncomputable def nearest_neighbor_tour (cities : List Point) (start_index : ℕ) : List ℕ :=
  if cities.length = 0 then []
  else start_index :: nn_loop cities start_index ((List.range cities.length).erase start_index)

/-- Source `new_route = best_route[:]; new_route[i:j] = reversed(best_route[i:j])`:
the slice `[i, j)` is reversed in place, the rest is kept. -/
def reverseSegment (r : List ℕ) (i j : ℕ) : List ℕ :=
  r.take i ++ (((r.drop i).take (j - i)).reverse ++ r.drop j)

/-- The body of the inner `for j` loop of `two_opt`, acting on the state
`(best_route, best_distance, improved)`. -/
noncomputable def scan_step (cities : List Point) (i : ℕ) (st : List ℕ × ℝ × Bool)
    (j : ℕ) : List ℕ × ℝ × Bool :=
  if j - i = 1 then st
  else
    let new_route := reverseSegment st.1 i j
    let new_distance := total_route_distance new_route cities
    if new_distance < st.2.1 then (new_route, new_distance, true) else st

/-- One full scan of `two_opt`'s `while` body: the nested loops
`for i in range(1, len-2): for j in range(i+1, len-1)` threaded over the
state, starting from `improved = False`. -/
noncomputable def two_opt_scan (cities : List Point) (r : List ℕ) : List ℕ × ℝ × Bool :=
  (List.range' 1 (r.length - 3)).foldl
    (fun st i => (List.range' (i + 1) (r.length - 1 - (i + 1))).foldl (scan_step cities i) st)
    (r, total_route_distance r cities, false)

/-- Left folds preserve invariants that every step preserves. -/
lemma foldl_inv {α σ : Type _} (f : σ → α → σ) (P : σ → Prop) :
    ∀ (l : List α) (s : σ), (∀ t a, a ∈ l → P t → P (f t a)) → P s →
      P (List.foldl f s l) := by
  intro l
  induction l with
  | nil => intro s _ h; simpa using h
  | cons a as ih =>
    intro s hstep h
    simp only [List.foldl_cons]
    exact ih (f s a) (fun t b hb => hstep t b (List.mem_cons_of_mem a hb))
      (hstep s a (List.mem_cons_self a as) h)

/-- Reversing the slice `[i, j)` permutes the route. -/
lemma reverseSegment_perm (r : List ℕ) {i j : ℕ} (hij : i ≤ j) :
    (reverseSegment r i j).Perm r := by
  have hdrop : (r.drop i).take (j - i) ++ r.drop j = r.drop i := by
    have h : r.drop j = (r.drop i).drop (j - i) := by
      rw [List.drop_drop]
      congr 1
      omega
    rw [h, List.take_append_drop]
  have hmid : (((r.drop i).take (j - i)).reverse ++ r.drop j).Perm (r.drop i) := by
    have h1 : (((r.drop i).take (j - i)).reverse ++ r.drop j).Perm
        ((r.drop i).take (j - i) ++ r.drop j) :=
      List.Perm.append_right _ (List.reverse_perm _)
    rw [hdrop] at h1
    exact h1
  have h2 := List.Perm.append_left (r.take i) hmid
  rw [List.take_append_drop] at h2
  exact h2

/-- Invariant carried by the scan state `(best_route, best_distance,
improved)` relative to the scan's input route `r`. -/
def ScanInv (cities : List Point) (r : List ℕ) (st : List ℕ × ℝ × Bool) : Prop :=
  st.1.Perm r ∧
  st.2.1 = total_route_distance st.1 cities ∧
  st.2.1 ≤ total_route_distance r cities ∧
  (st.2.2 = true → st.2.1 < total_route_distance r cities) ∧
  (st.2.2 = false → st.1 = r)

lemma scan_step_inv (cities : List Point) (r : List ℕ) {i j : ℕ} (hij : i ≤ j)
    (st : List ℕ × ℝ × Bool) (h : ScanInv cities r st) :
    ScanInv cities r (scan_step cities i st j) := by
  obtain ⟨hperm, heq, hle, himp, hni⟩ := h
  unfold scan_step
  by_cases h1 : j - i = 1
  · rw [if_pos h1]; exact ⟨hperm, heq, hle, himp, hni⟩
  · rw [if_neg h1]
    simp only
    by_cases h2 : total_route_distance (reverseSegment st.1 i j) cities < st.2.1
    · rw [if_pos h2]
      refine ⟨(reverseSegment_perm st.1 hij).trans hperm, rfl, ?_, ?_, ?_⟩
      · exact le_of_lt (lt_of_lt_of_le h2 hle)
      · intro _; exact lt_of_lt_of_le h2 hle
      · intro hfalse; exact absurd hfalse (by simp)
    · rw [if_neg h2]; exact ⟨hperm, heq, hle, himp, hni⟩

/-- The state after a full scan satisfies the scan invariant. -/
lemma two_opt_scan_inv (cities : List Point) (r : List ℕ) :
    ScanInv cities r (two_opt_scan cities r) := by
  unfold two_opt_scan
  apply foldl_inv _ (ScanInv cities r)
  · intro st i hi hst
    apply foldl_inv _ (ScanInv cities r)
    · intro st' j hj hst'
      have hij : i ≤ j := by
        have := List.mem_range'_1.1 hj
        omega
      exact scan_step_inv cities r hij st' hst'
    · exact hst
  · exact ⟨List.Perm.refl r, rfl, le_refl _, by simp, fun _ => rfl⟩

/-- Termination measure for the `while improved:` loop: the number of
permutations of the current route that are strictly shorter.  Each
improving scan strictly shrinks it. -/
noncomputable def routeMeasure (cities : List Point) (r : List ℕ) : ℕ :=
  (r.permutations.toFinset.filter
    (fun x => total_route_distance x cities < total_route_distance r cities)).card

lemma routeMeasure_lt (cities : List Point) (r r' : List ℕ) (hperm : r'.Perm r)
    (hlt : total_route_distance r' cities < total_route_distance r cities) :
    routeMeasure cities r' < routeMeasure cities r := by
  unfold routeMeasure
  have hsets : r'.permutations.toFinset = r.permutations.toFinset := by
    ext x
    simp only [List.mem_toFinset, List.mem_permutations]
    exact ⟨fun hx => hx.trans hperm, fun hx => hx.trans hperm.symm⟩
  rw [hsets]
  apply Finset.card_lt_card
  constructor
  · intro x hx
    rw [Finset.mem_filter] at hx ⊢
    exact ⟨hx.1, lt_trans hx.2 hlt⟩
  · intro hsup
    have hr' : r' ∈ r.permutations.toFinset.filter
        (fun x => total_route_distance x cities < total_route_distance r cities) := by
      rw [Finset.mem_filter]
      exact ⟨by rw [List.mem_toFinset, List.mem_permutations]; exact hperm, hlt⟩
    have := hsup hr'
    rw [Finset.mem_filter] at this
    exact absurd this.2 (lt_irrefl _)

/-- The `while improved:` loop of `two_opt`.  `two_opt_scan` is a pure
function of the state, so re-projecting it denotes the single Python call. -/
noncomputable def two_opt_loop (cities : List Point) (r : List ℕ) : List ℕ :=
  if h : (two_opt_scan cities r).2.2 = true then two_opt_loop cities (two_opt_scan cities r).1
  else (two_opt_scan cities r).1
termination_by routeMeasure cities r
decreasing_by
  have hinv := two_opt_scan_inv cities r
  have hlt := hinv.2.2.2.1 h
  rw [hinv.2.1] at hlt
  exact routeMeasure_lt cities r _ hinv.1 hlt

/-- Source `two_opt(route, cities)`. -/
noncomputable def two_opt (route : List ℕ) (cities : List Point) : List ℕ :=
  two_opt_loop cities route

/-- One Constructor-then-Improver run of the driver's loop body:
`route = nearest_neighbor_tour(cities, start); route = two_opt(route, cities)`. -/
noncomputable def run_route (cities : List Point) (start : ℕ) : List ℕ :=
  two_opt (nearest_neighbor_tour cities start) cities

/-- Source `dist = total_route_distance(route, cities)` for the run from `start`. -/
noncomputable def run_dist (cities : List Point) (start : ℕ) : ℝ :=
  total_route_distance (run_route cities start) cities

/-- Source `start_indices = start_indices[:min(5, n)]`, where `shuffled` is the
random permutation of `range(n)` produced by `random.shuffle`. -/
def tsp_starts (n : ℕ) (shuffled : List ℕ) : List ℕ :=
  shuffled.take (min 5 n)

/-- The driver's loop body on the state `(best_route, best_distance)`.
Python initialises `best_route = None, best_distance = inf`, modelled by
`none`; every finite distance is below `inf`, so from `none` the first run
is always kept. -/
noncomputable def solve_step (cities : List Point) (best : Option (List ℕ × ℝ))
    (start : ℕ) : Option (List ℕ × ℝ) :=
  match best with
  | none => some (run_route cities start, run_dist cities start)
  | some (br, bd) =>
    if run_dist cities start < bd then some (run_route cities start, run_dist cities start)
    else some (br, bd)

/-- Source `solve_tsp(cities)` with the shuffled index list passed explicitly
(`random.shuffle` is the only source of non-determinism).  The returned
`none` corresponds to Python's `(None, inf)`, reachable only when the start
list is empty. -/
noncomputable def solve_tsp (cities : List Point) (shuffled : List ℕ) :
    Option (List ℕ × ℝ) :=
  if cities.length ≤ 1 then some (List.range cities.length, 0)
  else (tsp_starts cities.length shuffled).foldl (solve_step cities) none

lemma euclidean_distance_nonneg (a b : Point) : 0 ≤ euclidean_distance a b :=
  Real.sqrt_nonneg _

lemma total_route_distance_nonneg (r : List ℕ) (c : List Point) :
    0 ≤ total_route_distance r c := by
  unfold total_route_distance
  by_cases h : r.length ≤ 1
  · rw [if_pos h]
  · rw [if_neg h]
    apply foldl_inv _ (fun d : ℝ => 0 ≤ d)
    · intro t a _ ht
      exact add_nonneg ht (euclidean_distance_nonneg _ _)
    · exact le_refl 0

/-- The nearest-neighbor loop visits exactly the unvisited cities. -/
lemma nn_loop_perm (c : List Point) (cur : ℕ) (u : List ℕ) :
    (nn_loop c cur u).Perm u := by
  induction cur, u using nn_loop.induct c with
  | case1 cur => rw [nn_loop]
  | case2 cur x xs nxt ih =>
    rw [nn_loop]
    have hmem : pickMin (nn_key c cur) x xs ∈ x :: xs := pickMin_mem _ xs x
    exact (ih.cons _).trans (List.perm_cons_erase hmem).symm

lemma nearest_neighbor_tour_perm (c : List Point) (s : ℕ) (hs : s < c.length) :
    (nearest_neighbor_tour c s).Perm (List.range c.length) := by
  unfold nearest_neighbor_tour
  rw [if_neg (by omega)]
  have hmem : s ∈ List.range c.length := List.mem_range.2 hs
  exact ((nn_loop_perm c s _).cons s).trans (List.perm_cons_erase hmem).symm

lemma nearest_neighbor_tour_length (c : List Point) (s : ℕ) (hs : s < c.length) :
    (nearest_neighbor_tour c s).length = c.length := by
  rw [(nearest_neighbor_tour_perm c s hs).length_eq, List.length_range]

/-- The spec bundle for the `while improved:` loop: the result is a
permutation of the input, never longer, and a fixed point of the scan. -/
lemma two_opt_loop_spec (c : List Point) (r : List ℕ) :
    (two_opt_loop c r).Perm r ∧
    total_route_distance (two_opt_loop c r) c ≤ total_route_distance r c ∧
    (two_opt_scan c (two_opt_loop c r)).2.2 = false := by
  have H : ∀ m r, routeMeasure c r = m →
      (two_opt_loop c r).Perm r ∧
      total_route_distance (two_opt_loop c r) c ≤ total_route_distance r c ∧
      (two_opt_scan c (two_opt_loop c r)).2.2 = false := by
    intro m
    induction m using Nat.strong_induction_on with
    | _ m ih =>
      intro r hm
      rw [two_opt_loop]
      by_cases himp : (two_opt_scan c r).2.2 = true
      · rw [dif_pos himp]
        have hinv := two_opt_scan_inv c r
        have hscanlt : total_route_distance (two_opt_scan c r).1 c <
            total_route_distance r c := by
          rw [← hinv.2.1]; exact hinv.2.2.2.1 himp
        have hmlt : routeMeasure c (two_opt_scan c r).1 < m :=
          hm ▸ routeMeasure_lt c r _ hinv.1 hscanlt
        obtain ⟨p1, p2, p3⟩ := ih _ hmlt _ rfl
        exact ⟨p1.trans hinv.1, le_trans p2 (le_of_lt hscanlt), p3⟩
      · rw [dif_neg himp]
        have hinv := two_opt_scan_inv c r
        have heq : (two_opt_scan c r).1 = r := hinv.2.2.2.2 (by simpa using himp)
        rw [heq]
        exact ⟨List.Perm.refl r, le_refl _, by simpa using himp⟩
  exact H (routeMeasure c r) r rfl

lemma two_opt_perm (r : List ℕ) (c : List Point) : (two_opt r c).Perm r :=
  (two_opt_loop_spec c r).1

lemma two_opt_dist_le (r : List ℕ) (c : List Point) :
    total_route_distance (two_opt r c) c ≤ total_route_distance r c :=
  (two_opt_loop_spec c r).2.1

/-- The result of `two_opt` is a fixed point: a second application returns
it unchanged. -/
lemma two_opt_fixed (r : List ℕ) (c : List Point) :
    two_opt (two_opt r c) c = two_opt r c := by
  unfold two_opt
  have hfix := (two_opt_loop_spec c r).2.2
  rw [two_opt_loop, dif_neg (by simp [hfix])]
  exact (two_opt_scan_inv c (two_opt_loop c r)).2.2.2.2 hfix

/-- Folding the driver's comparison from a concrete best pair: either the
pair survives because no later run beats it, or the first strictly better
run that no later run beats (strictly, for earlier ties) is returned. -/
lemma solve_fold_spec (c : List Point) :
    ∀ (l : List ℕ) (br : List ℕ) (bd : ℝ),
      (List.foldl (solve_step c) (some (br, bd)) l = some (br, bd) ∧
        ∀ t ∈ l, bd ≤ run_dist c t) ∨
      (∃ pre s post, l = pre ++ s :: post ∧
        List.foldl (solve_step c) (some (br, bd)) l =
          some (run_route c s, run_dist c s) ∧
        run_dist c s < bd ∧
        (∀ t ∈ pre, run_dist c s < run_dist c t) ∧
        (∀ t ∈ post, run_dist c s ≤ run_dist c t)) := by
  intro l
  induction l with
  | nil => intro br bd; left; exact ⟨rfl, by simp⟩
  | cons a as ih =>
    intro br bd
    simp only [List.foldl_cons]
    by_cases ha : run_dist c a < bd
    · have hstep : solve_step c (some (br, bd)) a =
          some (run_route c a, run_dist c a) := by
        simp [solve_step, ha]
      rw [hstep]
      rcases ih (run_route c a) (run_dist c a) with
        ⟨heq, hall⟩ | ⟨pre, s, post, hl, heq, hlt, hpre, hpost⟩
      · exact Or.inr ⟨[], a, as, rfl, heq, ha, by simp, hall⟩
      · refine Or.inr ⟨a :: pre, s, post, by rw [hl, List.cons_append], heq, lt_trans hlt ha, ?_, hpost⟩
        intro t ht
        rcases List.mem_cons.1 ht with rfl | ht
        · exact hlt
        · exact hpre t ht
    · have hstep : solve_step c (some (br, bd)) a = some (br, bd) := by
        simp [solve_step, ha]
      rw [hstep]
      rcases ih br bd with
        ⟨heq, hall⟩ | ⟨pre, s, post, hl, heq, hlt, hpre, hpost⟩
      · refine Or.inl ⟨heq, ?_⟩
        intro t ht
        rcases List.mem_cons.1 ht with rfl | ht
        · exact not_lt.1 ha
        · exact hall t ht
      · refine Or.inr ⟨a :: pre, s, post, by rw [hl, List.cons_append], heq, hlt, ?_, hpost⟩
        intro t ht
        rcases List.mem_cons.1 ht with rfl | ht
        · exact lt_of_lt_of_le hlt (not_lt.1 ha)
        · exact hpre t ht

/-- From the initial `None` state, a non-empty start list yields the run of
the earliest start attaining the minimal run distance. -/
lemma solve_foldl_first_min (c : List Point) (l : List ℕ) (hne : l ≠ []) :
    ∃ pre s post, l = pre ++ s :: post ∧
      List.foldl (solve_step c) none l = some (run_route c s, run_dist c s) ∧
      (∀ t ∈ pre, run_dist c s < run_dist c t) ∧
      (∀ t ∈ l, run_dist c s ≤ run_dist c t) := by
  cases l with
  | nil => exact absurd rfl hne
  | cons a as =>
    simp only [List.foldl_cons]
    have hstep : solve_step c none a = some (run_route c a, run_dist c a) := rfl
    rw [hstep]
    rcases solve_fold_spec c as (run_route c a) (run_dist c a) with
      ⟨heq, hall⟩ | ⟨pre, s, post, hl, heq, hlt, hpre, hpost⟩
    · refine ⟨[], a, as, rfl, heq, by simp, ?_⟩
      intro t ht
      rcases List.mem_cons.1 ht with rfl | ht
      · exact le_refl _
      · exact hall t ht
    · refine ⟨a :: pre, s, post, by rw [hl, List.cons_append], heq, ?_, ?_⟩
      · intro t ht
        rcases List.mem_cons.1 ht with rfl | ht
        · exact hlt
        · exact hpre t ht
      · intro t ht
        rcases List.mem_cons.1 ht with rfl | ht
        · exact le_of_lt hlt
        · rw [hl] at ht
          rcases List.mem_append.1 ht with ht | ht
          · exact le_of_lt (hpre t ht)
          · rcases List.mem_cons.1 ht with rfl | ht
            · exact le_refl _
            · exact hpost t ht

lemma tsp_starts_length (n : ℕ) (sh : List ℕ) (hp : sh.Perm (List.range n)) :
    (tsp_starts n sh).length = min 5 n := by
  unfold tsp_starts
  rw [List.length_take, hp.length_eq, List.length_range]
  omega

lemma tsp_starts_nodup (n : ℕ) (sh : List ℕ) (hp : sh.Perm (List.range n)) :
    (tsp_starts n sh).Nodup :=
  (List.take_sublist _ _).nodup (hp.nodup_iff.2 (List.nodup_range n))

lemma tsp_starts_mem_lt (n : ℕ) (sh : List ℕ) (hp : sh.Perm (List.range n)) :
    ∀ s ∈ tsp_starts n sh, s < n := by
  intro s hs
  have hmem : s ∈ sh := (List.take_subset _ _) hs
  exact List.mem_range.1 (hp.mem_iff.1 hmem)

lemma tsp_starts_ne_nil (n : ℕ) (sh : List ℕ) (hp : sh.Perm (List.range n))
    (hn : 2 ≤ n) : tsp_starts n sh ≠ [] := by
  have hlen := tsp_starts_length n sh hp
  intro hcon
  rw [hcon] at hlen
  simp at hlen
  omega

/-- The four corners of the unit square, the spec's known small case. -/
noncomputable def unitSquare : List Point := [(0, 0), (1, 0), (1, 1), (0, 1)]

/-- A single point, used to exercise the degenerate branch. -/
noncomputable def onePoint : List Point := [(0, 0)]

/-- C1: for every city sequence with `n = len(cities) >= 1` and every
shuffle, `solve_tsp` returns `some (tour, length)` where `tour` is a
permutation of `0..n-1` and `length` is the cyclic tour length of `tour`,
which is non-negative. -/
theorem C1_solve_tsp_postcondition (cities : List Point) (shuffled : List ℕ)
    (hn : 1 ≤ cities.length) (hsh : shuffled.Perm (List.range cities.length)) :
    ∃ tour len, solve_tsp cities shuffled = some (tour, len) ∧
      tour.Perm (List.range cities.length) ∧
      len = total_route_distance tour cities ∧ 0 ≤ len := by
  unfold solve_tsp
  by_cases h1 : cities.length ≤ 1
  · rw [if_pos h1]
    refine ⟨List.range cities.length, 0, rfl, List.Perm.refl _, ?_, le_refl 0⟩
    have hlen : cities.length = 1 := le_antisymm h1 hn
    rw [total_route_distance, if_pos (by simp [hlen])]
  · rw [if_neg h1]
    obtain ⟨pre, s, post, hl, heq, hpre, hall⟩ :=
      solve_foldl_first_min cities _
        (tsp_starts_ne_nil cities.length shuffled hsh (by omega))
    have hs_mem : s ∈ tsp_starts cities.length shuffled := by rw [hl]; simp
    have hs_lt : s < cities.length :=
      tsp_starts_mem_lt cities.length shuffled hsh s hs_mem
    refine ⟨run_route cities s, run_dist cities s, heq, ?_, rfl,
      total_route_distance_nonneg _ _⟩
    exact (two_opt_perm _ _).trans (nearest_neighbor_tour_perm cities s hs_lt)

theorem C1_witness :
    1 ≤ onePoint.length ∧ ([0] : List ℕ).Perm (List.range onePoint.length) ∧
    ∃ tour len, solve_tsp onePoint [0] = some (tour, len) ∧
      tour.Perm (List.range onePoint.length) ∧
      len = total_route_distance tour onePoint ∧ 0 ≤ len :=
  ⟨by decide, by decide,
    C1_solve_tsp_postcondition onePoint [0] (by decide) (by decide)⟩

/-- C2: `two_opt` returns a route with the same number of elements, a
permutation of the input route, whose cyclic length never exceeds the
input's. -/
theorem C2_two_opt_improves (route : List ℕ) (cities : List Point) :
    (two_opt route cities).length = route.length ∧
    (two_opt route cities).Perm route ∧
    total_route_distance (two_opt route cities) cities ≤
      total_route_distance route cities :=
  ⟨(two_opt_perm route cities).length_eq, two_opt_perm route cities,
    two_opt_dist_le route cities⟩

/-- C3: `two_opt` is a fixed point under repetition: applying it twice
yields the same tour length as applying it once. -/
theorem C3_two_opt_idempotent (t : List ℕ) (cities : List Point) :
    total_route_distance (two_opt (two_opt t cities) cities) cities =
      total_route_distance (two_opt t cities) cities := by
  rw [two_opt_fixed]

/-- C5: for a start index in `0..n-1`, `nearest_neighbor_tour` returns a
tour of length exactly `n` that is a permutation of `0..n-1` beginning at
the start index; for `n = 0` it returns the empty tour. -/
theorem C5_nn_tour (cities : List Point) (s : ℕ) :
    (s < cities.length →
      (nearest_neighbor_tour cities s).length = cities.length ∧
      (nearest_neighbor_tour cities s).Perm (List.range cities.length) ∧
      (nearest_neighbor_tour cities s).head? = some s) ∧
    (cities.length = 0 → nearest_neighbor_tour cities s = []) := by
  constructor
  · intro hs
    refine ⟨nearest_neighbor_tour_length _ _ hs,
      nearest_neighbor_tour_perm _ _ hs, ?_⟩
    unfold nearest_neighbor_tour
    rw [if_neg (by omega)]
    rfl
  · intro h0
    unfold nearest_neighbor_tour
    rw [if_pos h0]

theorem C5_witness :
    (0 < unitSquare.length ∧
      (nearest_neighbor_tour unitSquare 0).length = unitSquare.length ∧
      (nearest_neighbor_tour unitSquare 0).Perm (List.range unitSquare.length) ∧
      (nearest_neighbor_tour unitSquare 0).head? = some 0) ∧
    (onePoint.length = 0 → nearest_neighbor_tour onePoint 0 = []) :=
  ⟨⟨by decide, (C5_nn_tour unitSquare 0).1 (by decide)⟩,
    (C5_nn_tour onePoint 0).2⟩

/-- C7: the driver tries exactly `min 5 n` pairwise-distinct start indices:
`n` of them when `n < 5` and `5` when `n ≥ 5`. -/
theorem C7_bounded_restarts (n : ℕ) (shuffled : List ℕ) (hn : 2 ≤ n)
    (hsh : shuffled.Perm (List.range n)) :
    (tsp_starts n shuffled).length = min 5 n ∧
    (tsp_starts n shuffled).Nodup ∧
    (n < 5 → (tsp_starts n shuffled).length = n) ∧
    (5 ≤ n → (tsp_starts n shuffled).length = 5) := by
  have hlen := tsp_starts_length n shuffled hsh
  exact ⟨hlen, tsp_starts_nodup n shuffled hsh,
    fun h5 => by rw [hlen]; omega, fun h5 => by rw [hlen]; omega⟩

theorem C7_witness :
    (2 ≤ 3 ∧ ([2, 0, 1] : List ℕ).Perm (List.range 3)) ∧
    ((tsp_starts 3 [2, 0, 1]).length = min 5 3 ∧
      (tsp_starts 3 [2, 0, 1]).Nodup ∧
      (3 < 5 → (tsp_starts 3 [2, 0, 1]).length = 3) ∧
      (5 ≤ 3 → (tsp_starts 3 [2, 0, 1]).length = 5)) :=
  ⟨⟨by decide, by decide⟩, C7_bounded_restarts 3 [2, 0, 1] (by decide) (by decide)⟩

/-- C8: the driver returns the run of the earliest sampled start attaining
the minimal run distance; in particular the returned length is `≤` the
length from every sampled start. -/
theorem C8_multi_start_min (cities : List Point) (shuffled : List ℕ)
    (hn : 2 ≤ cities.length) (hsh : shuffled.Perm (List.range cities.length)) :
    ∃ pre s post, tsp_starts cities.length shuffled = pre ++ s :: post ∧
      solve_tsp cities shuffled = some (run_route cities s, run_dist cities s) ∧
      (∀ t ∈ pre, run_dist cities s < run_dist cities t) ∧
      (∀ t ∈ tsp_starts cities.length shuffled,
        run_dist cities s ≤ run_dist cities t) := by
  unfold solve_tsp
  rw [if_neg (by omega)]
  exact solve_foldl_first_min cities _
    (tsp_starts_ne_nil cities.length shuffled hsh hn)

theorem C8_witness :
    2 ≤ unitSquare.length ∧
    ([1, 3, 0, 2] : List ℕ).Perm (List.range unitSquare.length) ∧
    ∃ pre s post, tsp_starts unitSquare.length [1, 3, 0, 2] = pre ++ s :: post ∧
      solve_tsp unitSquare [1, 3, 0, 2] =
        some (run_route unitSquare s, run_dist unitSquare s) ∧
      (∀ t ∈ pre, run_dist unitSquare s < run_dist unitSquare t) ∧
      (∀ t ∈ tsp_starts unitSquare.length [1, 3, 0, 2],
        run_dist unitSquare s ≤ run_dist unitSquare t) :=
  ⟨by decide, by decide,
    C8_multi_start_min unitSquare [1, 3, 0, 2] (by decide) (by decide)⟩

/-- C9: degenerate inputs bypass the search: the empty city set yields
`([], 0.0)` and a single point yields `([0], 0.0)`, for every shuffle. -/
theorem C9_degenerate (p : Point) (shuffled : List ℕ) :
    solve_tsp [] shuffled = some ([], 0) ∧
    solve_tsp [p] shuffled = some ([0], 0) := by
  constructor
  · unfold solve_tsp
    rw [if_pos (by simp)]
    simp
  · unfold solve_tsp
    rw [if_pos (by simp)]
    simp [List.range_succ]

/-- Positions strictly before the reversal window are untouched. -/
lemma reverseSegment_getD_lt (l : List ℕ) (i j p : ℕ) (hp : p < i)
    (hpl : p < l.length) :
    (reverseSegment l i j).getD p 0 = l.getD p 0 := by
  unfold reverseSegment
  rw [List.getD_append _ _ _ _ (by simp; omega)]
  rw [List.getD_eq_getElem _ _ (by simp; omega), List.getD_eq_getElem _ _ hpl]
  simp [List.getElem_take]

/-- Positions at or past `j` are untouched by reversing `[i, j)`. -/
lemma reverseSegment_getD_ge (l : List ℕ) (i j p : ℕ) (hij : i ≤ j)
    (hjl : j ≤ l.length) (hp : j ≤ p) :
    (reverseSegment l i j).getD p 0 = l.getD p 0 := by
  unfold reverseSegment
  have hlen1 : (l.take i).length = i := by simp; omega
  have hlen2 : (((l.drop i).take (j - i)).reverse).length = j - i := by simp; omega
  rw [List.getD_append_right _ _ _ _ (by rw [hlen1]; omega), hlen1]
  rw [List.getD_append_right _ _ _ _ (by rw [hlen2]; omega), hlen2]
  have hidx : p - i - (j - i) = p - j := by omega
  rw [hidx]
  by_cases hpl : p < l.length
  · rw [List.getD_eq_getElem _ _ (by simp; omega), List.getD_eq_getElem _ _ hpl]
    rw [List.getElem_drop]
    congr 1
    omega
  · rw [List.getD_eq_default _ _ (by simp; omega), List.getD_eq_default _ _ (by omega)]

/-- The frame invariant through a full scan: the first and the two last
positions of the route (and its length) are unchanged. -/
lemma two_opt_scan_frame (c : List Point) (r : List ℕ) :
    (two_opt_scan c r).1.length = r.length ∧
    ∀ p, p = 0 ∨ r.length - 2 ≤ p →
      (two_opt_scan c r).1.getD p 0 = r.getD p 0 := by
  unfold two_opt_scan
  apply foldl_inv _ (fun st : List ℕ × ℝ × Bool => st.1.length = r.length ∧
    ∀ p, p = 0 ∨ r.length - 2 ≤ p → st.1.getD p 0 = r.getD p 0)
  · intro st i hi hst
    apply foldl_inv _ (fun st : List ℕ × ℝ × Bool => st.1.length = r.length ∧
      ∀ p, p = 0 ∨ r.length - 2 ≤ p → st.1.getD p 0 = r.getD p 0)
    · intro st' j hj hst'
      have hib := List.mem_range'_1.1 hi
      have hjb := List.mem_range'_1.1 hj
      unfold scan_step
      by_cases h1 : j - i = 1
      · rw [if_pos h1]; exact hst'
      · rw [if_neg h1]
        simp only
        by_cases h2 : total_route_distance (reverseSegment st'.1 i j) c < st'.2.1
        · rw [if_pos h2]
          have hlen : st'.1.length = r.length := hst'.1
          refine ⟨?_, ?_⟩
          · rw [(reverseSegment_perm st'.1 (show i ≤ j by omega)).length_eq, hlen]
          · intro p hp
            rcases hp with rfl | hp
            · rw [reverseSegment_getD_lt st'.1 i j 0 (by omega) (by omega)]
              exact hst'.2 0 (Or.inl rfl)
            · rw [reverseSegment_getD_ge st'.1 i j p (by omega) (by omega) (by omega)]
              exact hst'.2 p (Or.inr hp)
        · rw [if_neg h2]; exact hst'
    · exact hst
  · exact ⟨rfl, fun p hp => rfl⟩

/-- The frame invariant through the whole `while` loop. -/
lemma two_opt_loop_frame (c : List Point) (r : List ℕ) :
    (two_opt_loop c r).length = r.length ∧
    ∀ p, p = 0 ∨ r.length - 2 ≤ p →
      (two_opt_loop c r).getD p 0 = r.getD p 0 := by
  have H : ∀ m r, routeMeasure c r = m →
      (two_opt_loop c r).length = r.length ∧
      ∀ p, p = 0 ∨ r.length - 2 ≤ p →
        (two_opt_loop c r).getD p 0 = r.getD p 0 := by
    intro m
    induction m using Nat.strong_induction_on with
    | _ m ih =>
      intro r hm
      rw [two_opt_loop]
      by_cases himp : (two_opt_scan c r).2.2 = true
      · rw [dif_pos himp]
        have hinv := two_opt_scan_inv c r
        have hframe := two_opt_scan_frame c r
        have hscanlt : total_route_distance (two_opt_scan c r).1 c <
            total_route_distance r c := by
          rw [← hinv.2.1]; exact hinv.2.2.2.1 himp
        have hmlt : routeMeasure c (two_opt_scan c r).1 < m :=
          hm ▸ routeMeasure_lt c r _ hinv.1 hscanlt
        obtain ⟨p1, p2⟩ := ih _ hmlt _ rfl
        refine ⟨by rw [p1, hframe.1], ?_⟩
        intro p hp
        have hp2 : p = 0 ∨ (two_opt_scan c r).1.length - 2 ≤ p := by
          rw [hframe.1]; exact hp
        rw [p2 p hp2, hframe.2 p hp]
      · rw [dif_neg himp]
        have heq : (two_opt_scan c r).1 = r :=
          (two_opt_scan_inv c r).2.2.2.2 (by simpa using himp)
        rw [heq]
        exact ⟨rfl, fun p hp => rfl⟩
  exact H (routeMeasure c r) r rfl

/-- On routes of length at most 4 the scan visits no candidate (the only
index pair `(1, 2)` is adjacent and skipped), so it changes nothing. -/
lemma two_opt_scan_short (c : List Point) (r : List ℕ) (hlen : r.length ≤ 4) :
    two_opt_scan c r = (r, total_route_distance r c, false) := by
  unfold two_opt_scan
  by_cases h3 : r.length ≤ 3
  · rw [show r.length - 3 = 0 by omega]
    rfl
  · have h4 : r.length = 4 := by omega
    rw [h4]
    have hr1 : List.range' 1 (4 - 3) = [1] := rfl
    have hr2 : List.range' (1 + 1) (4 - 1 - (1 + 1)) = [2] := rfl
    rw [hr1]
    simp only [List.foldl_cons, List.foldl_nil, hr2]
    unfold scan_step
    rw [if_pos rfl]

/-- On routes of length at most 4, `two_opt` is the identity. -/
lemma two_opt_short (r : List ℕ) (c : List Point) (hlen : r.length ≤ 4) :
    two_opt r c = r := by
  unfold two_opt
  rw [two_opt_loop, dif_neg (by rw [two_opt_scan_short c r hlen]; simp),
    two_opt_scan_short c r hlen]

/-- C10: `two_opt` never changes position `0` nor the last two positions of
the route (the reversal window satisfies `1 ≤ i < j ≤ n-2`); consequently on
routes of length at most 4 it returns the input unchanged. -/
theorem C10_two_opt_frame (route : List ℕ) (cities : List Point) :
    (two_opt route cities).length = route.length ∧
    (two_opt route cities).getD 0 0 = route.getD 0 0 ∧
    (two_opt route cities).getD (route.length - 2) 0 =
      route.getD (route.length - 2) 0 ∧
    (two_opt route cities).getD (route.length - 1) 0 =
      route.getD (route.length - 1) 0 ∧
    (route.length ≤ 4 → two_opt route cities = route) := by
  have hframe := two_opt_loop_frame cities route
  exact ⟨hframe.1, hframe.2 0 (Or.inl rfl), hframe.2 _ (Or.inr (le_refl _)),
    hframe.2 _ (Or.inr (by omega)), two_opt_short route cities⟩

theorem C10_witness :
    ([3, 1, 0, 2] : List ℕ).length ≤ 4 ∧
    two_opt [3, 1, 0, 2] unitSquare = [3, 1, 0, 2] :=
  ⟨by decide, (C10_two_opt_frame [3, 1, 0, 2] unitSquare).2.2.2.2 (by decide)⟩

/-- On a strictly increasing candidate list, Python's `min` returns a
minimizer of the key, and any other minimizer has a larger index. -/
lemma pickMin_is_first_min (key : ℕ → ℝ) :
    ∀ (xs : List ℕ) (x : ℕ), (x :: xs).Sorted (· < ·) →
      (∀ m ∈ x :: xs, key (pickMin key x xs) ≤ key m) ∧
      (∀ m ∈ x :: xs, key m = key (pickMin key x xs) → pickMin key x xs ≤ m) := by
  intro xs
  induction xs with
  | nil =>
    intro x _
    constructor
    · intro m hm
      rw [List.mem_singleton.1 hm]
      exact le_refl _
    · intro m hm _
      rw [List.mem_singleton.1 hm]
      simp [pickMin]
  | cons y ys ih =>
    intro x hsort
    obtain ⟨hx, hsort2⟩ := List.sorted_cons.1 hsort
    obtain ⟨hy, hsort3⟩ := List.sorted_cons.1 hsort2
    by_cases hc : key y < key x
    · have hstep : pickMin key x (y :: ys) = pickMin key y ys := by
        simp [pickMin, hc]
      obtain ⟨ihmin, ihtie⟩ := ih y hsort2
      rw [hstep]
      constructor
      · intro m hm
        rcases List.mem_cons.1 hm with rfl | hm2
        · exact le_of_lt (lt_of_le_of_lt (ihmin y (by simp)) hc)
        · exact ihmin m hm2
      · intro m hm hkey
        rcases List.mem_cons.1 hm with rfl | hm2
        · exact absurd (lt_of_le_of_lt (ihmin y (by simp)) hc)
            (by rw [hkey]; exact lt_irrefl _)
        · exact ihtie m hm2 hkey
    · have hstep : pickMin key x (y :: ys) = pickMin key x ys := by
        simp [pickMin, hc]
      have hsort' : (x :: ys).Sorted (· < ·) := by
        rw [List.sorted_cons]
        exact ⟨fun b hb => lt_trans (hx y (by simp)) (hy b hb), hsort3⟩
      obtain ⟨ihmin, ihtie⟩ := ih x hsort'
      rw [hstep]
      constructor
      · intro m hm
        rcases List.mem_cons.1 hm with rfl | hm2
        · exact ihmin m (by simp)
        · rcases List.mem_cons.1 hm2 with rfl | hm3
          · exact le_trans (ihmin x (by simp)) (not_lt.1 hc)
          · exact ihmin m (by simp [hm3])
      · intro m hm hkey
        rcases List.mem_cons.1 hm with rfl | hm2
        · exact ihtie m (by simp) hkey
        · rcases List.mem_cons.1 hm2 with rfl | hm3
          · have hxm : key x = key (pickMin key x ys) := by
              refine le_antisymm ?_ (ihmin x (by simp))
              rw [← hkey]
              exact not_lt.1 hc
            exact le_trans (ihtie x (by simp) hxm) (le_of_lt (hx m (by simp)))
          · exact ihtie m (by simp [hm3]) hkey

/-- C4: on a strictly increasing unvisited list, the nearest-neighbor step
picks an unvisited city at minimal distance from the current city, and on
ties the one with the lowest index; the chosen city stays in the list, and
removing it keeps the remaining unvisited list strictly increasing, so the
construction is deterministic. -/
theorem C4_nn_tie_break (cities : List Point) (current x : ℕ) (xs : List ℕ)
    (hsort : (x :: xs).Sorted (· < ·)) :
    pickMin (nn_key cities current) x xs ∈ x :: xs ∧
    (∀ m ∈ x :: xs,
      nn_key cities current (pickMin (nn_key cities current) x xs) ≤
        nn_key cities current m) ∧
    (∀ m ∈ x :: xs,
      nn_key cities current m =
        nn_key cities current (pickMin (nn_key cities current) x xs) →
      pickMin (nn_key cities current) x xs ≤ m) ∧
    ((x :: xs).erase (pickMin (nn_key cities current) x xs)).Sorted (· < ·) :=
  ⟨pickMin_mem _ xs x,
    (pickMin_is_first_min (nn_key cities current) xs x hsort).1,
    (pickMin_is_first_min (nn_key cities current) xs x hsort).2,
    hsort.erase _⟩

theorem C4_witness :
    (((1 : ℕ) :: [2, 3]).Sorted (· < ·)) ∧
    (pickMin (nn_key unitSquare 0) 1 [2, 3] ∈ (1 : ℕ) :: [2, 3] ∧
      (∀ m ∈ (1 : ℕ) :: [2, 3],
        nn_key unitSquare 0 (pickMin (nn_key unitSquare 0) 1 [2, 3]) ≤
          nn_key unitSquare 0 m) ∧
      (∀ m ∈ (1 : ℕ) :: [2, 3],
        nn_key unitSquare 0 m =
          nn_key unitSquare 0 (pickMin (nn_key unitSquare 0) 1 [2, 3]) →
        pickMin (nn_key unitSquare 0) 1 [2, 3] ≤ m) ∧
      (((1 : ℕ) :: [2, 3]).erase (pickMin (nn_key unitSquare 0) 1 [2, 3])).Sorted
        (· < ·)) :=
  ⟨by decide, C4_nn_tie_break unitSquare 0 1 [2, 3] (by decide)⟩

lemma one_lt_sqrt_two : (1 : ℝ) < Real.sqrt 2 := by
  have h := Real.sqrt_lt_sqrt (by norm_num : (0:ℝ) ≤ 1) (by norm_num : (1:ℝ) < 2)
  rwa [Real.sqrt_one] at h

lemma sqrt_two_not_lt_one : ¬ (Real.sqrt 2 < 1) :=
  not_lt.2 (le_of_lt one_lt_sqrt_two)

lemma one_not_lt_one : ¬ ((1 : ℝ) < 1) := lt_irrefl 1

lemma nn_key_u01 : nn_key unitSquare 0 1 = 1 := by
  simp only [nn_key, unitSquare, List.getD_cons_zero, List.getD_cons_succ]
  norm_num [euclidean_distance, Real.sqrt_one]

lemma nn_key_u02 : nn_key unitSquare 0 2 = Real.sqrt 2 := by
  simp only [nn_key, unitSquare, List.getD_cons_zero, List.getD_cons_succ]
  norm_num [euclidean_distance]

lemma nn_key_u03 : nn_key unitSquare 0 3 = 1 := by
  simp only [nn_key, unitSquare, List.getD_cons_zero, List.getD_cons_succ]
  norm_num [euclidean_distance, Real.sqrt_one]

lemma nn_key_u10 : nn_key unitSquare 1 0 = 1 := by
  simp only [nn_key, unitSquare, List.getD_cons_zero, List.getD_cons_succ]
  norm_num [euclidean_distance, Real.sqrt_one]

lemma nn_key_u12 : nn_key unitSquare 1 2 = 1 := by
  simp only [nn_key, unitSquare, List.getD_cons_zero, List.getD_cons_succ]
  norm_num [euclidean_distance, Real.sqrt_one]

lemma nn_key_u13 : nn_key unitSquare 1 3 = Real.sqrt 2 := by
  simp only [nn_key, unitSquare, List.getD_cons_zero, List.getD_cons_succ]
  norm_num [euclidean_distance]

lemma nn_key_u20 : nn_key unitSquare 2 0 = Real.sqrt 2 := by
  simp only [nn_key, unitSquare, List.getD_cons_zero, List.getD_cons_succ]
  norm_num [euclidean_distance]

lemma nn_key_u21 : nn_key unitSquare 2 1 = 1 := by
  simp only [nn_key, unitSquare, List.getD_cons_zero, List.getD_cons_succ]
  norm_num [euclidean_distance, Real.sqrt_one]

lemma nn_key_u23 : nn_key unitSquare 2 3 = 1 := by
  simp only [nn_key, unitSquare, List.getD_cons_zero, List.getD_cons_succ]
  norm_num [euclidean_distance, Real.sqrt_one]

lemma nn_key_u30 : nn_key unitSquare 3 0 = 1 := by
  simp only [nn_key, unitSquare, List.getD_cons_zero, List.getD_cons_succ]
  norm_num [euclidean_distance, Real.sqrt_one]

lemma nn_key_u31 : nn_key unitSquare 3 1 = Real.sqrt 2 := by
  simp only [nn_key, unitSquare, List.getD_cons_zero, List.getD_cons_succ]
  norm_num [euclidean_distance]

lemma nn_key_u32 : nn_key unitSquare 3 2 = 1 := by
  simp only [nn_key, unitSquare, List.getD_cons_zero, List.getD_cons_succ]
  norm_num [euclidean_distance, Real.sqrt_one]

/-- Unfolding equation of `nn_loop` on a non-empty unvisited list. -/
lemma nn_loop_cons (c : List Point) (cur x : ℕ) (xs : List ℕ) :
    nn_loop c cur (x :: xs) =
      pickMin (nn_key c cur) x xs ::
        nn_loop c (pickMin (nn_key c cur) x xs)
          ((x :: xs).erase (pickMin (nn_key c cur) x xs)) := by
  rw [nn_loop]

lemma nn_tour_u0 : nearest_neighbor_tour unitSquare 0 = [0, 1, 2, 3] := by
  have p1 : pickMin (nn_key unitSquare 0) 1 [2, 3] = 1 := by
    simp [pickMin, nn_key_u01, nn_key_u02, nn_key_u03, sqrt_two_not_lt_one]
  have p2 : pickMin (nn_key unitSquare 1) 2 [3] = 2 := by
    simp [pickMin, nn_key_u12, nn_key_u13, sqrt_two_not_lt_one]
  unfold nearest_neighbor_tour
  rw [if_neg (by simp [unitSquare]),
    show (List.range unitSquare.length).erase 0 = [1, 2, 3] from rfl,
    nn_loop_cons, p1,
    show ([1, 2, 3] : List ℕ).erase 1 = [2, 3] from rfl, nn_loop_cons, p2,
    show ([2, 3] : List ℕ).erase 2 = [3] from rfl, nn_loop_cons,
    show pickMin (nn_key unitSquare 2) 3 [] = 3 from rfl,
    show ([3] : List ℕ).erase 3 = ([] : List ℕ) from rfl, nn_loop]

lemma nn_tour_u1 : nearest_neighbor_tour unitSquare 1 = [1, 0, 3, 2] := by
  have p1 : pickMin (nn_key unitSquare 1) 0 [2, 3] = 0 := by
    simp [pickMin, nn_key_u10, nn_key_u12, nn_key_u13, sqrt_two_not_lt_one]
  have p2 : pickMin (nn_key unitSquare 0) 2 [3] = 3 := by
    simp [pickMin, nn_key_u02, nn_key_u03, one_lt_sqrt_two]
  unfold nearest_neighbor_tour
  rw [if_neg (by simp [unitSquare]),
    show (List.range unitSquare.length).erase 1 = [0, 2, 3] from rfl,
    nn_loop_cons, p1,
    show ([0, 2, 3] : List ℕ).erase 0 = [2, 3] from rfl, nn_loop_cons, p2,
    show ([2, 3] : List ℕ).erase 3 = [2] from rfl, nn_loop_cons,
    show pickMin (nn_key unitSquare 3) 2 [] = 2 from rfl,
    show ([2] : List ℕ).erase 2 = ([] : List ℕ) from rfl, nn_loop]

lemma nn_tour_u2 : nearest_neighbor_tour unitSquare 2 = [2, 1, 0, 3] := by
  have p1 : pickMin (nn_key unitSquare 2) 0 [1, 3] = 1 := by
    simp [pickMin, nn_key_u20, nn_key_u21, nn_key_u23, one_lt_sqrt_two]
  have p2 : pickMin (nn_key unitSquare 1) 0 [3] = 0 := by
    simp [pickMin, nn_key_u10, nn_key_u13, sqrt_two_not_lt_one]
  unfold nearest_neighbor_tour
  rw [if_neg (by simp [unitSquare]),
    show (List.range unitSquare.length).erase 2 = [0, 1, 3] from rfl,
    nn_loop_cons, p1,
    show ([0, 1, 3] : List ℕ).erase 1 = [0, 3] from rfl, nn_loop_cons, p2,
    show ([0, 3] : List ℕ).erase 0 = [3] from rfl, nn_loop_cons,
    show pickMin (nn_key unitSquare 0) 3 [] = 3 from rfl,
    show ([3] : List ℕ).erase 3 = ([] : List ℕ) from rfl, nn_loop]

lemma nn_tour_u3 : nearest_neighbor_tour unitSquare 3 = [3, 0, 1, 2] := by
  have p1 : pickMin (nn_key unitSquare 3) 0 [1, 2] = 0 := by
    simp [pickMin, nn_key_u30, nn_key_u31, nn_key_u32, sqrt_two_not_lt_one]
  have p2 : pickMin (nn_key unitSquare 0) 1 [2] = 1 := by
    simp [pickMin, nn_key_u01, nn_key_u02, sqrt_two_not_lt_one]
  unfold nearest_neighbor_tour
  rw [if_neg (by simp [unitSquare]),
    show (List.range unitSquare.length).erase 3 = [0, 1, 2] from rfl,
    nn_loop_cons, p1,
    show ([0, 1, 2] : List ℕ).erase 0 = [1, 2] from rfl, nn_loop_cons, p2,
    show ([1, 2] : List ℕ).erase 1 = [2] from rfl, nn_loop_cons,
    show pickMin (nn_key unitSquare 1) 2 [] = 2 from rfl,
    show ([2] : List ℕ).erase 2 = ([] : List ℕ) from rfl, nn_loop]

lemma tot_u0123 : total_route_distance [0, 1, 2, 3] unitSquare = 4 := by
  unfold total_route_distance
  rw [if_neg (by norm_num)]
  norm_num [List.range_succ, unitSquare, euclidean_distance, Real.sqrt_one]

lemma tot_u1032 : total_route_distance [1, 0, 3, 2] unitSquare = 4 := by
  unfold total_route_distance
  rw [if_neg (by norm_num)]
  norm_num [List.range_succ, unitSquare, euclidean_distance, Real.sqrt_one]

lemma tot_u2103 : total_route_distance [2, 1, 0, 3] unitSquare = 4 := by
  unfold total_route_distance
  rw [if_neg (by norm_num)]
  norm_num [List.range_succ, unitSquare, euclidean_distance, Real.sqrt_one]

lemma tot_u3012 : total_route_distance [3, 0, 1, 2] unitSquare = 4 := by
  unfold total_route_distance
  rw [if_neg (by norm_num)]
  norm_num [List.range_succ, unitSquare, euclidean_distance, Real.sqrt_one]

lemma run_dist_u0 : run_dist unitSquare 0 = 4 := by
  unfold run_dist run_route
  rw [nn_tour_u0, two_opt_short _ _ (by norm_num), tot_u0123]

lemma run_dist_u1 : run_dist unitSquare 1 = 4 := by
  unfold run_dist run_route
  rw [nn_tour_u1, two_opt_short _ _ (by norm_num), tot_u1032]

lemma run_dist_u2 : run_dist unitSquare 2 = 4 := by
  unfold run_dist run_route
  rw [nn_tour_u2, two_opt_short _ _ (by norm_num), tot_u2103]

lemma run_dist_u3 : run_dist unitSquare 3 = 4 := by
  unfold run_dist run_route
  rw [nn_tour_u3, two_opt_short _ _ (by norm_num), tot_u3012]

/-- C6: on the unit square `[(0,0),(1,0),(1,1),(0,1)]`, `solve_tsp` returns
a tour of total length exactly 4, for every shuffle of the start indices
the driver may sample. -/
theorem C6_unit_square (shuffled : List ℕ)
    (hsh : shuffled.Perm (List.range unitSquare.length)) :
    ∃ tour, solve_tsp unitSquare shuffled = some (tour, 4) ∧
      total_route_distance tour unitSquare = 4 := by
  unfold solve_tsp
  rw [if_neg (by simp [unitSquare])]
  obtain ⟨pre, s, post, hl, heq, hpre, hall⟩ :=
    solve_foldl_first_min unitSquare _
      (tsp_starts_ne_nil unitSquare.length shuffled hsh (by simp [unitSquare]))
  have hs_mem : s ∈ tsp_starts unitSquare.length shuffled := by rw [hl]; simp
  have hs_lt : s < 4 :=
    tsp_starts_mem_lt unitSquare.length shuffled hsh s hs_mem
  have hd : run_dist unitSquare s = 4 := by
    have hcases : s = 0 ∨ s = 1 ∨ s = 2 ∨ s = 3 := by omega
    rcases hcases with rfl | rfl | rfl | rfl
    · exact run_dist_u0
    · exact run_dist_u1
    · exact run_dist_u2
    · exact run_dist_u3
  refine ⟨run_route unitSquare s, ?_, hd⟩
  rw [heq, hd]

theorem C6_witness :
    ([3, 1, 0, 2] : List ℕ).Perm (List.range unitSquare.length) ∧
    ∃ tour, solve_tsp unitSquare [3, 1, 0, 2] = some (tour, 4) ∧
      total_route_distance tour unitSquare = 4 :=
  ⟨by decide, C6_unit_square [3, 1, 0, 2] (by decide)⟩
